import Mathlib

/-!
Shallow embedding of the streaming JSON tokenizer from
`src/examples/media-session/json.h` (struct `spa_json` and the functions
`spa_json_init`, `spa_json_enter`, `spa_json_next`, `spa_json_enter_container`,
the classification predicates and the conversion routines), together with
theorems settling the specification claims about it.

The buffer is a `List Nat` of byte values; pointers become `Nat` offsets into
that buffer. The `const char **value` out-parameter of `spa_json_next` is
threaded explicitly: it enters as the caller's current slot contents and the
(possibly updated) slot is part of the result. The `parent` pointer becomes a
`hasParent` flag on the cursor plus an explicit `parentWrite` field in the
result carrying the single optional store into `parent->cur`.
-/

set_option maxRecDepth 4000
set_option maxHeartbeats 1000000

namespace SpaJsonModel

/-- The scan states of `spa_json_next`: `enum { __NONE, __STRUCT, __BARE, __STRING, __UTF8, __ESC }`. -/
inductive JState where
  | NONE
  | STRUCT
  | BARE
  | STRING
  | UTF8
  | ESC
deriving DecidableEq, Repr

/-- `struct spa_json`: `cur` and `end` are offsets (named `jend` since `end` is a
Lean keyword), the `parent` pointer is reduced to the flag `hasParent`. -/
structure SpaJson where
  cur : Nat
  jend : Nat
  hasParent : Bool
  state : JState
  depth : Nat
deriving DecidableEq, Repr

/-- Everything `spa_json_next` produces: the `int` return value, the updated
cursor fields, the final contents of the caller's `value` slot, and `wrote`,
true exactly when the `}`/`]`-at-depth-0 branch ran (the branch that stores
`iter->cur` into `iter->parent->cur` when a parent exists). -/
structure NextOut where
  res : Int
  cur : Nat
  state : JState
  depth : Nat
  value : Nat
  wrote : Bool
deriving DecidableEq, Repr

/-- Bytes skipped in `__STRUCT`: `'\t' ' ' '\r' '\n' ':' ','`. -/
def isSep (c : Nat) : Bool :=
  decide (c = 9 ∨ c = 32 ∨ c = 13 ∨ c = 10 ∨ c = 58 ∨ c = 44)

/-- Bytes starting a bare token: `'-'`, `'a'..'z'`, `'A'..'Z'`, `'0'..'9'`. -/
def isBareStart (c : Nat) : Bool :=
  decide (c = 45 ∨ (97 ≤ c ∧ c ≤ 122) ∨ (65 ≤ c ∧ c ≤ 90) ∨ (48 ≤ c ∧ c ≤ 57))

/-- Bytes ending a bare token: whitespace, `':'`, `','`, `']'`, `'}'`. -/
def isBareEnd (c : Nat) : Bool :=
  isSep c || decide (c = 93 ∨ c = 125)

/-- Opening container delimiters `'['`, `'{'`. -/
def isOpen (c : Nat) : Bool :=
  decide (c = 91 ∨ c = 123)

/-- Closing container delimiters `'}'`, `']'`. -/
def isCloseDelim (c : Nat) : Bool :=
  decide (c = 125 ∨ c = 93)

/-- Printable ASCII range accepted in `__BARE` and `__STRING`. -/
def isPrint (c : Nat) : Bool :=
  decide (32 ≤ c ∧ c ≤ 126)

/-- Escape characters accepted in `__ESC`: `" \ / b f n r t u`. -/
def isEscOk (c : Nat) : Bool :=
  decide (c = 34 ∨ c = 92 ∨ c = 47 ∨ c = 98 ∨ c = 102 ∨ c = 110 ∨ c = 114 ∨ c = 116 ∨ c = 117)

/-- States in which the scanner is inside a token whose start was marked in `value`. -/
def midToken (st : JState) : Bool :=
  match st with
  | .BARE => true
  | .STRING => true
  | .UTF8 => true
  | .ESC => true
  | _ => false

/-- Outcome of processing one byte: either `continue` (advance `iter->cur` and
keep scanning with the updated in-loop state) or `return` with a finished
`NextOut`. The `goto again` re-dispatches are fused into the byte dispatch. -/
inductive Act where
  | cont (st : JState) (depth : Nat) (value : Nat) (u : Int)
  | ret (o : NextOut)

/-- The `__STRUCT` arm of the switch in `spa_json_next`. -/
def structA (c cur depth value : Nat) (u : Int) : Act :=
  if isSep c then .cont .STRUCT depth value u
  else if c = 34 then .cont .STRING depth cur u
  else if isOpen c then
    if depth + 1 > 1 then .cont .STRUCT (depth + 1) cur u
    else .ret ⟨1, cur + 1, .STRUCT, depth + 1, cur, false⟩
  else if isCloseDelim c then
    if depth = 0 then .ret ⟨0, cur, .STRUCT, depth, value, true⟩
    else .cont .STRUCT (depth - 1) value u
  else if isBareStart c then .cont .BARE depth cur u
  else .ret ⟨-1, cur, .STRUCT, depth, value, false⟩

/-- One byte of the state machine of `spa_json_next`. `__NONE` resets depth to 0
and re-examines the byte under `__STRUCT`; `__BARE` on a terminator with
`depth > 0` re-examines the byte under `__STRUCT` (the `goto again` paths). -/
def procByte (c cur : Nat) (st : JState) (depth value : Nat) (u : Int) : Act :=
  match st with
  | .NONE => structA c cur 0 value u
  | .STRUCT => structA c cur depth value u
  | .BARE =>
    if isBareEnd c then
      if depth > 0 then structA c cur depth value u
      else .ret ⟨(cur : Int) - (value : Int), cur, .STRUCT, depth, value, false⟩
    else if isPrint c then .cont .BARE depth value u
    else .ret ⟨-1, cur, .BARE, depth, value, false⟩
  | .STRING =>
    if c = 92 then .cont .ESC depth value u
    else if c = 34 then
      if depth > 0 then .cont .STRUCT depth value u
      else .ret ⟨(cur : Int) + 1 - (value : Int), cur + 1, .STRUCT, depth, value, false⟩
    else if 240 ≤ c ∧ c ≤ 247 then .cont .UTF8 depth value (u + 3)
    else if 224 ≤ c ∧ c ≤ 239 then .cont .UTF8 depth value (u + 2)
    else if 192 ≤ c ∧ c ≤ 223 then .cont .UTF8 depth value (u + 1)
    else if isPrint c then .cont .STRING depth value u
    else .ret ⟨-1, cur, .STRING, depth, value, false⟩
  | .UTF8 =>
    if 128 ≤ c ∧ c ≤ 191 then
      if u - 1 = 0 then .cont .STRING depth value (u - 1)
      else .cont .UTF8 depth value (u - 1)
    else .ret ⟨-1, cur, .UTF8, depth, value, false⟩
  | .ESC =>
    if isEscOk c then .cont .STRING depth value u
    else .ret ⟨-1, cur, .ESC, depth, value, false⟩

/-- The `for (; iter->cur < iter->end; iter->cur++)` loop of `spa_json_next`,
with `fuel` bounding the number of iterations (callers pass `jend - cur`, which
is exact). Falling off the loop returns `iter->depth == 0 ? 0 : -1`. -/
def scanGo (buf : List Nat) (jend : Nat) :
    Nat → Nat → JState → Nat → Nat → Int → NextOut
  | 0, cur, st, depth, value, _ =>
    ⟨if depth = 0 then 0 else -1, cur, st, depth, value, false⟩
  | fuel + 1, cur, st, depth, value, u =>
    if cur < jend then
      match procByte (buf.getD cur 0) cur st depth value u with
      | .cont st' d' v' u' => scanGo buf jend fuel (cur + 1) st' d' v' u'
      | .ret o => o
    else ⟨if depth = 0 then 0 else -1, cur, st, depth, value, false⟩

/-- The scan loop at its canonical fuel `jend - cur`. -/
def SCAN (buf : List Nat) (jend cur : Nat) (st : JState) (depth value : Nat) (u : Int) : NextOut :=
  scanGo buf jend (jend - cur) cur st depth value u

/-- Result of one `spa_json_next` call: return value, updated cursor, the
caller's `value` slot, and the optional store into `parent->cur`. -/
structure NextResult where
  res : Int
  iter : SpaJson
  value : Nat
  parentWrite : Option Nat
deriving DecidableEq, Repr

/-- `spa_json_next`: run the scan loop from the cursor's saved position, state
and depth, with the local `utf8_remain` starting at 0. -/
def spa_json_next (buf : List Nat) (it : SpaJson) (value : Nat) : NextResult :=
  let o := SCAN buf it.jend it.cur it.state it.depth value 0
  ⟨o.res, { it with cur := o.cur, state := o.state, depth := o.depth },
   o.value, if o.wrote && it.hasParent then some o.cur else none⟩

/-- `SPA_JSON_INIT(data, size)` with the buffer start at offset 0. -/
def spa_json_init (size : Nat) : SpaJson :=
  ⟨0, size, false, .NONE, 0⟩

/-- `SPA_JSON_ENTER(iter)`: child at the parent's position, same end, with a
parent, zero-initialized state and depth. -/
def spa_json_enter (it : SpaJson) : SpaJson :=
  ⟨it.cur, it.jend, true, .NONE, 0⟩

/-- `spa_json_enter_container`: calls `spa_json_next`; on `< 0`, or when the byte
at the `value` slot differs from `type`, fails with -1 and no child; otherwise
enters. `value0` is the caller's (possibly uninitialized) `value` variable,
which `spa_json_next` leaves untouched when it returns without marking a span. -/
def spa_json_enter_container (buf : List Nat) (it : SpaJson) (value0 : Nat) (type : Nat) :
    Int × SpaJson × Option SpaJson :=
  let r := spa_json_next buf it value0
  if r.res < 0 ∨ buf.getD r.value 0 ≠ type then (-1, r.iter, none)
  else (1, r.iter, some (spa_json_enter r.iter))

/-- C `strcmp(val + i, lit) == 0` for a literal `lit` of nonzero bytes: every
literal byte must match and the buffer byte after the literal must be NUL.
Bytes past the end of the model buffer read as 0. -/
def cstrEq (buf : List Nat) : Nat → List Nat → Bool
  | i, [] => buf.getD i 0 == 0
  | i, l :: ls => buf.getD i 0 == l && cstrEq buf (i + 1) ls

/-- `spa_json_is_null`: `len == 4 && strcmp(val, "null") == 0`. -/
def spa_json_is_null (buf : List Nat) (val len : Nat) : Bool :=
  len == 4 && cstrEq buf val [110, 117, 108, 108]

/-- `spa_json_is_true`: `len == 4 && strcmp(val, "true") == 0`. -/
def spa_json_is_true (buf : List Nat) (val len : Nat) : Bool :=
  len == 4 && cstrEq buf val [116, 114, 117, 101]

/-- `spa_json_is_false`: `len == 5 && strcmp(val, "false") == 0`. -/
def spa_json_is_false (buf : List Nat) (val len : Nat) : Bool :=
  len == 5 && cstrEq buf val [102, 97, 108, 115, 101]

/-- `spa_json_is_bool`. -/
def spa_json_is_bool (buf : List Nat) (val len : Nat) : Bool :=
  spa_json_is_true buf val len || spa_json_is_false buf val len

/-- `spa_json_is_string`: `len > 1 && *val == '"'`. -/
def spa_json_is_string (buf : List Nat) (val len : Nat) : Bool :=
  decide (1 < len) && (buf.getD val 0 == 34)

/-- `spa_json_parse_bool`, transcribed with its two `if ((*result = ...))`
assignments: the returned pair is (return value, final `*result`). -/
def spa_json_parse_bool (buf : List Nat) (val len : Nat) : Int × Bool :=
  let r1 := spa_json_is_true buf val len
  if r1 then (1, r1)
  else
    let r2 := !spa_json_is_false buf val len
    if !r2 then (1, r2)
    else (-1, r2)

/-- The copy loop of `spa_json_parse_string`, from `p` up to `stop = val+len-1`
exclusive: a backslash consumes the next byte and emits its decoding (`n r b t`
to the control characters, anything else literally); other bytes are copied. -/
def psGo (buf : List Nat) : Nat → Nat → Nat → List Nat
  | 0, _, _ => []
  | f + 1, p, stop =>
    if p < stop then
      if buf.getD p 0 = 92 then
        (if buf.getD (p + 1) 0 = 110 then 10
         else if buf.getD (p + 1) 0 = 114 then 13
         else if buf.getD (p + 1) 0 = 98 then 8
         else if buf.getD (p + 1) 0 = 116 then 9
         else buf.getD (p + 1) 0) :: psGo buf f (p + 2) stop
      else buf.getD p 0 :: psGo buf f (p + 1) stop
    else []

/-- `spa_json_parse_string`: requires `spa_json_is_string`, copies the decoded
interior and appends the NUL terminator; `none` models the -1 return. -/
def spa_json_parse_string (buf : List Nat) (val len : Nat) : Option (List Nat) :=
  if spa_json_is_string buf val len then
    some (psGo buf len (val + 1) (val + len - 1) ++ [0])
  else none

/-- One call record of a drain loop: return value, `value` slot, parent store. -/
structure CallOut where
  res : Int
  value : Nat
  write : Option Nat
deriving DecidableEq, Repr

/-- Drive a cursor with repeated `spa_json_next` calls (reusing the same `value`
variable, as the callers in `json.h` do) until a result `<= 0`; `fuel` bounds
the number of calls. Returns the records of the token-returning calls and, if
reached within fuel, the final call's record and the cursor after it. -/
def drainGo (buf : List Nat) : Nat → SpaJson → Nat → List CallOut × Option (CallOut × SpaJson)
  | 0, _, _ => ([], none)
  | k + 1, it, v =>
    let r := spa_json_next buf it v
    if 0 < r.res then
      let d := drainGo buf k r.iter r.value
      (⟨r.res, r.value, r.parentWrite⟩ :: d.1, d.2)
    else ([], some (⟨r.res, r.value, r.parentWrite⟩, r.iter))

/-- Cursor and `value` slot after `k` successive `spa_json_next` calls. -/
def callsFrom (buf : List Nat) (it : SpaJson) (v : Nat) : Nat → SpaJson × Nat
  | 0 => (it, v)
  | k + 1 =>
    let p := callsFrom buf it v k
    let r := spa_json_next buf p.1 p.2
    (r.iter, r.value)

/-- Observable outcome of `n` successive `spa_json_next` calls: each call's
return code, its span position when a token was returned, and its store into
`parent->cur`. -/
def obsCalls (buf : List Nat) : Nat → SpaJson → Nat → List (Int × Option Nat × Option Nat)
  | 0, _, _ => []
  | n + 1, it, v =>
    let r := spa_json_next buf it v
    (r.res, if 0 < r.res then some r.value else none, r.parentWrite) ::
      obsCalls buf n r.iter r.value

/-- Apply a sequence of stores into a parent cursor's `cur`, in order. -/
def applyWrites (it : SpaJson) (ws : List (Option Nat)) : SpaJson :=
  ws.foldl (fun j w => match w with | some x => { j with cur := x } | none => j) it

/-- All parent stores produced by a drain, in order. -/
def drainWrites (d : List CallOut × Option (CallOut × SpaJson)) : List (Option Nat) :=
  d.1.map (fun o => o.write) ++ (match d.2 with | some (o, _) => [o.write] | none => [])

/-- Follows the spec's words for parse-as-string: decode `\n \r \b \t` into
their control characters and any other escaped character into the literal
character following the backslash. -/
def escDecode (e : Nat) : Nat :=
  if e = 110 then 10
  else if e = 114 then 13
  else if e = 98 then 8
  else if e = 116 then 9
  else e

/-- Follows the spec's words for parse-as-string: the interior between the
quotes, with each backslash escape decoded by `escDecode` and everything else
copied verbatim; a backslash that is the last interior byte escapes the byte
that follows the interior (the closing quote position), passed as `close`. -/
def specUnescape : List Nat → Nat → List Nat
  | [], _ => []
  | c :: rest, close =>
    if c = 92 then
      match rest with
      | [] => [escDecode close]
      | e :: rest2 => escDecode e :: specUnescape rest2 close
    else c :: specUnescape rest close

/-- Scanner-side invariants of one `SCAN` run started at `cur`: the position
advances and stays within bounds; the `wrote` flag implies a clean end of scope
at a closing delimiter strictly inside the buffer with depth 0; end of scope
strictly inside the buffer implies `wrote`; a positive return leaves the
`__STRUCT` state. -/
def ScanOk (buf : List Nat) (jend cur : Nat) (o : NextOut) : Prop :=
  (cur ≤ o.cur ∧ o.cur ≤ jend) ∧
  (o.wrote = true →
    o.res = 0 ∧ o.depth = 0 ∧ o.cur < jend ∧ isCloseDelim (buf.getD o.cur 0) = true) ∧
  (o.res = 0 → o.cur < jend → o.wrote = true) ∧
  (0 < o.res → o.state = .STRUCT)

/-- The 10-byte buffer `true false`. -/
def bufTF : List Nat := [116, 114, 117, 101, 32, 102, 97, 108, 115, 101]

/-- The 5-byte buffer `[1] 2`. -/
def bufC6 : List Nat := [91, 49, 93, 32, 50]

/-- Two scan results that agree on everything observable: equal return value,
final position, state, depth and write flag, and equal span position whenever a
token was returned or the final state is mid-token. Runs differing only in the
initial contents of the caller's `value` slot satisfy this. -/
def OutRel (o1 o2 : NextOut) : Prop :=
  o1.res = o2.res ∧ o1.cur = o2.cur ∧ o1.state = o2.state ∧ o1.depth = o2.depth ∧
  o1.wrote = o2.wrote ∧ (0 < o1.res → o1.value = o2.value) ∧
  (midToken o1.state = true → o1.value = o2.value)

/-! ## Basic facts about the scan loop -/

theorem scan_exit (buf : List Nat) (jend cur : Nat) (st : JState) (d v : Nat) (u : Int)
    (h : jend ≤ cur) :
    SCAN buf jend cur st d v u = ⟨if d = 0 then 0 else -1, cur, st, d, v, false⟩ := by
  have h0 : jend - cur = 0 := Nat.sub_eq_zero_of_le h
  rw [SCAN, h0, scanGo]

theorem scan_succ (buf : List Nat) (jend cur : Nat) (st : JState) (d v : Nat) (u : Int)
    (h : cur < jend) :
    SCAN buf jend cur st d v u =
      match procByte (buf.getD cur 0) cur st d v u with
      | .cont st' d' v' u' => SCAN buf jend (cur + 1) st' d' v' u'
      | .ret o => o := by
  have h1 : jend - cur = (jend - (cur + 1)) + 1 := by omega
  rw [SCAN, h1, scanGo, if_pos h]
  rfl

theorem procByte_cont_inv (c cur : Nat) (st : JState) (d v : Nat) (u : Int)
    (st' : JState) (d' v' : Nat) (u' : Int)
    (hmid : midToken st = true → v < cur)
    (h : procByte c cur st d v u = .cont st' d' v' u') :
    midToken st' = true → v' < cur + 1 := by
  cases st <;> simp only [procByte, structA] at h <;> split_ifs at h <;>
    cases h <;> simp_all [midToken] <;> omega

theorem procByte_ret_facts (c cur : Nat) (st : JState) (d v : Nat) (u : Int)
    (o : NextOut)
    (hmid : midToken st = true → v < cur)
    (h : procByte c cur st d v u = .ret o) :
    (cur ≤ o.cur ∧ o.cur ≤ cur + 1) ∧
    (o.wrote = true → o.res = 0 ∧ o.depth = 0 ∧ o.cur = cur ∧ isCloseDelim c = true) ∧
    (o.res = 0 → o.wrote = true) ∧
    (0 < o.res → o.state = .STRUCT) := by
  cases st <;> simp only [procByte, structA] at h <;> split_ifs at h <;>
    cases h <;> simp_all [midToken] <;> omega

theorem scan_ok (buf : List Nat) (jend : Nat) :
    ∀ n cur st d v u, jend - cur ≤ n → cur ≤ jend → (midToken st = true → v < cur) →
      ScanOk buf jend cur (SCAN buf jend cur st d v u) := by
  intro n
  induction n with
  | zero =>
    intro cur st d v u hn hle hmid
    have hge : jend ≤ cur := by omega
    rw [scan_exit buf jend cur st d v u hge]
    refine ⟨⟨le_refl _, hle⟩, ?_, ?_, ?_⟩ <;> dsimp only
    · intro hw; cases hw
    · intro _ hlt; exact absurd hlt (by omega)
    · intro hres; split at hres <;> omega
  | succ n ih =>
    intro cur st d v u hn hle hmid
    by_cases hcur : cur < jend
    · rw [scan_succ buf jend cur st d v u hcur]
      cases hp : procByte (buf.getD cur 0) cur st d v u with
      | cont st' d' v' u' =>
        dsimp only
        have hmid' := procByte_cont_inv (buf.getD cur 0) cur st d v u st' d' v' u' hmid hp
        obtain ⟨⟨ha1, ha2⟩, hb, hc, hd⟩ := ih (cur + 1) st' d' v' u' (by omega) (by omega) hmid'
        exact ⟨⟨by omega, ha2⟩, hb, hc, hd⟩
      | ret o =>
        dsimp only
        obtain ⟨⟨h1, h2⟩, h3, h4, h5⟩ :=
          procByte_ret_facts (buf.getD cur 0) cur st d v u o hmid hp
        refine ⟨⟨h1, by omega⟩, ?_, ?_, h5⟩
        · intro hw
          obtain ⟨ha, hb, hc, hd⟩ := h3 hw
          refine ⟨ha, hb, by omega, ?_⟩
          rw [hc]; exact hd
        · intro ha _
          exact h4 ha
    · have hge : jend ≤ cur := by omega
      rw [scan_exit buf jend cur st d v u hge]
      refine ⟨⟨le_refl _, hle⟩, ?_, ?_, ?_⟩ <;> dsimp only
      · intro hw; cases hw
      · intro _ hlt; exact absurd hlt (by omega)
      · intro hres; split at hres <;> omega

theorem next_eq (buf : List Nat) (it : SpaJson) (v : Nat) :
    spa_json_next buf it v =
      ⟨(SCAN buf it.jend it.cur it.state it.depth v 0).res,
       { it with cur := (SCAN buf it.jend it.cur it.state it.depth v 0).cur,
                 state := (SCAN buf it.jend it.cur it.state it.depth v 0).state,
                 depth := (SCAN buf it.jend it.cur it.state it.depth v 0).depth },
       (SCAN buf it.jend it.cur it.state it.depth v 0).value,
       if (SCAN buf it.jend it.cur it.state it.depth v 0).wrote && it.hasParent
       then some (SCAN buf it.jend it.cur it.state it.depth v 0).cur else none⟩ := rfl

theorem next_ok (buf : List Nat) (it : SpaJson) (v : Nat)
    (h : it.cur ≤ it.jend) (hmid : midToken it.state = true → v < it.cur) :
    (it.cur ≤ (spa_json_next buf it v).iter.cur ∧ (spa_json_next buf it v).iter.cur ≤ it.jend) ∧
    (∀ w, (spa_json_next buf it v).parentWrite = some w →
      (spa_json_next buf it v).res = 0 ∧ w = (spa_json_next buf it v).iter.cur ∧
      w < it.jend ∧ isCloseDelim (buf.getD w 0) = true ∧ it.hasParent = true) ∧
    ((spa_json_next buf it v).res = 0 → (spa_json_next buf it v).iter.cur < it.jend →
      it.hasParent = true →
      (spa_json_next buf it v).parentWrite = some ((spa_json_next buf it v).iter.cur)) ∧
    (0 < (spa_json_next buf it v).res → (spa_json_next buf it v).iter.state = .STRUCT) := by
  obtain ⟨⟨ha1, ha2⟩, hb, hc, hd⟩ :=
    scan_ok buf it.jend (it.jend - it.cur) it.cur it.state it.depth v 0 (le_refl _) h hmid
  rw [next_eq]
  set o := SCAN buf it.jend it.cur it.state it.depth v 0 with ho
  refine ⟨⟨ha1, ha2⟩, ?_, ?_, hd⟩
  · intro w hw
    dsimp only at hw ⊢
    by_cases hcond : (o.wrote && it.hasParent) = true
    · rw [if_pos hcond] at hw
      have hwc : w = o.cur := by injection hw with h1; omega
      subst hwc
      simp only [Bool.and_eq_true] at hcond
      obtain ⟨hr, hd0, hlt, hcl⟩ := hb hcond.1
      exact ⟨hr, rfl, hlt, hcl, hcond.2⟩
    · rw [if_neg hcond] at hw; cases hw
  · intro h1 h2 h3
    dsimp only at h1 h2 ⊢
    have hw := hc h1 h2
    rw [if_pos (by rw [hw, h3]; rfl)]

/-! ## Claim theorems: concrete divergences -/

/-- C1: the claim says draining a fresh root cursor over `"true false"` returns
two bare-token spans, `true` then `false`, before reporting end of scope. The
code instead returns only the span of `true` (result 4 at offset 0) and then
reports end of scope (0): at end of buffer `spa_json_next` returns
`depth == 0 ? 0 : -1` even when the scanner is mid-way through a bare token, so
the trailing `false` is never emitted. -/
theorem c1_trailing_bare_token_lost :
    (drainGo bufTF 3 (spa_json_init 10) 0).1 = [⟨4, 0, none⟩] ∧
    (drainGo bufTF 3 (spa_json_init 10) 0).2 =
      some (⟨0, 5, none⟩, ⟨10, 10, false, .BARE, 0⟩) := by
  decide

/-- C2: the claim says the first `spa_json_next` on the 4-byte buffer `"abc`
(unterminated string) returns a negative value. The code instead returns 0
(end of scope): the end-of-buffer return checks only `depth`, not the scan
state, and `depth` is still 0 inside an unterminated top-level string. -/
theorem c2_unterminated_string_returns_end_of_scope :
    (spa_json_next [34, 97, 98, 99] (spa_json_init 4) 0).res = 0 ∧
    ¬((spa_json_next [34, 97, 98, 99] (spa_json_init 4) 0).res < 0) := by
  decide

/-- C3: the claim says `spa_json_is_true` is an exact match on the span's own
bytes regardless of what follows the span. The code uses `strcmp`, which also
requires the byte after the span to be NUL: on the span (0,4) of `"true false"`
(bytes exactly `true`, followed by a space) it returns false, while on the same
four bytes followed by NUL it returns true. -/
theorem c3_is_true_depends_on_byte_after_span :
    bufTF.take 4 = [116, 114, 117, 101] ∧
    spa_json_is_true bufTF 0 4 = false ∧
    spa_json_is_bool bufTF 0 4 = false ∧
    spa_json_is_true [116, 114, 117, 101, 0] 0 4 = true := by
  decide

/-- C4 counterexample: on `[]`, after the root reports the container, the child
cursor's `spa_json_next` hits `]` (at offset 1) at depth 0 and returns end of
scope, but the store into `parent->cur` is offset 1 — the position OF the
closing delimiter — not offset 2, the position one past it that the claim
asserts. -/
theorem c4_writeback_counterexample :
    (spa_json_next [91, 93]
      (spa_json_enter (spa_json_next [91, 93] (spa_json_init 2) 0).iter) 0).res = 0 ∧
    (spa_json_next [91, 93]
      (spa_json_enter (spa_json_next [91, 93] (spa_json_init 2) 0).iter) 0).parentWrite = some 1 ∧
    ¬((spa_json_next [91, 93]
      (spa_json_enter (spa_json_next [91, 93] (spa_json_init 2) 0).iter) 0).parentWrite = some 2) := by
  decide

/-- C4 (amended): whenever `spa_json_next` encounters a closing delimiter `}`
or `]` with depth 0 and the cursor has a parent, it stores into `parent->cur`
the position OF that closing delimiter — which is also where the cursor itself
stops, strictly inside the buffer — and returns end of scope (0); conversely,
an end-of-scope return with the cursor strictly inside the buffer on a cursor
with a parent always performs exactly that store. -/
theorem c4_writeback_at_delimiter (buf : List Nat) (it : SpaJson) (v : Nat)
    (h : it.cur ≤ it.jend) (hmid : midToken it.state = true → v < it.cur) :
    (∀ w, (spa_json_next buf it v).parentWrite = some w →
      (spa_json_next buf it v).res = 0 ∧ w = (spa_json_next buf it v).iter.cur ∧
      w < it.jend ∧ isCloseDelim (buf.getD w 0) = true) ∧
    ((spa_json_next buf it v).res = 0 → (spa_json_next buf it v).iter.cur < it.jend →
      it.hasParent = true →
      (spa_json_next buf it v).parentWrite = some ((spa_json_next buf it v).iter.cur)) := by
  obtain ⟨_, hb, hc, _⟩ := next_ok buf it v h hmid
  exact ⟨fun w hw => ⟨(hb w hw).1, (hb w hw).2.1, (hb w hw).2.2.1, (hb w hw).2.2.2.1⟩, hc⟩

/-- Witness for C4 (amended) at the child cursor over `[]` positioned on `]`. -/
theorem c4_writeback_at_delimiter_witness :
    (spa_json_next [91, 93] (spa_json_enter ⟨1, 2, false, .STRUCT, 1⟩) 0).parentWrite = some 1 ∧
    ((spa_json_next [91, 93] (spa_json_enter ⟨1, 2, false, .STRUCT, 1⟩) 0).res = 0 ∧
     (1 : Nat) = (spa_json_next [91, 93] (spa_json_enter ⟨1, 2, false, .STRUCT, 1⟩) 0).iter.cur ∧
     1 < 2 ∧ isCloseDelim (([91, 93] : List Nat).getD 1 0) = true) :=
  ⟨by decide,
   (c4_writeback_at_delimiter [91, 93] (spa_json_enter ⟨1, 2, false, .STRUCT, 1⟩) 0
     (by decide) (by decide)).1 1 (by decide)⟩

/-- C5: the claim says `spa_json_enter_container` fails whenever its internal
`spa_json_next` reports end of scope rather than a token. The code only checks
for a negative return and then dereferences the `value` pointer, which an
end-of-scope return leaves uninitialized: on the buffer `}{` with the stale
slot contents pointing at offset 1 (a `{` byte), the internal call reports end
of scope (0) yet `spa_json_enter_container` returns success and produces a
child cursor. -/
theorem c5_enter_container_succeeds_after_end_of_scope :
    (spa_json_next [125, 123] (spa_json_init 2) 1).res = 0 ∧
    (spa_json_enter_container [125, 123] (spa_json_init 2) 1 123).1 = 1 ∧
    ¬((spa_json_enter_container [125, 123] (spa_json_init 2) 1 123).2.2 = none) := by
  decide

/-- C10: whenever the span is classified neither is-true nor is-false,
`spa_json_parse_bool` still mutates the caller's output: it returns -1 with the
output set to true. -/
theorem c10_parse_bool_failure_sets_true (buf : List Nat) (val len : Nat)
    (ht : spa_json_is_true buf val len = false)
    (hf : spa_json_is_false buf val len = false) :
    spa_json_parse_bool buf val len = (-1, true) := by
  simp [spa_json_parse_bool, ht, hf]

/-- Witness for C10 on the span `null`, which is neither `true` nor `false`. -/
theorem c10_parse_bool_failure_sets_true_witness :
    spa_json_is_true [110, 117, 108, 108] 0 4 = false ∧
    spa_json_is_false [110, 117, 108, 108] 0 4 = false ∧
    spa_json_parse_bool [110, 117, 108, 108] 0 4 = (-1, true) :=
  ⟨by decide, by decide,
   c10_parse_bool_failure_sets_true [110, 117, 108, 108] 0 4 (by decide) (by decide)⟩

/-! ## Cursor monotonicity and the write-back discipline -/

theorem procByte_ret_cur (c cur : Nat) (st : JState) (d v : Nat) (u : Int) (o : NextOut)
    (h : procByte c cur st d v u = .ret o) :
    cur ≤ o.cur ∧ o.cur ≤ cur + 1 := by
  cases st <;> simp only [procByte, structA] at h <;> split_ifs at h <;>
    cases h <;> simp_all

theorem scan_mono (buf : List Nat) (jend : Nat) :
    ∀ n cur st d v u, jend - cur ≤ n → cur ≤ jend →
      cur ≤ (SCAN buf jend cur st d v u).cur ∧ (SCAN buf jend cur st d v u).cur ≤ jend := by
  intro n
  induction n with
  | zero =>
    intro cur st d v u hn hle
    rw [scan_exit buf jend cur st d v u (by omega)]
    exact ⟨le_refl _, hle⟩
  | succ n ih =>
    intro cur st d v u hn hle
    by_cases hcur : cur < jend
    · rw [scan_succ buf jend cur st d v u hcur]
      cases hp : procByte (buf.getD cur 0) cur st d v u with
      | cont st' d' v' u' =>
        dsimp only
        obtain ⟨h1, h2⟩ := ih (cur + 1) st' d' v' u' (by omega) (by omega)
        exact ⟨by omega, h2⟩
      | ret o =>
        dsimp only
        obtain ⟨h1, h2⟩ := procByte_ret_cur (buf.getD cur 0) cur st d v u o hp
        exact ⟨h1, by omega⟩
    · rw [scan_exit buf jend cur st d v u (by omega)]
      exact ⟨le_refl _, hle⟩

theorem next_mono (buf : List Nat) (it : SpaJson) (v : Nat) (h : it.cur ≤ it.jend) :
    it.cur ≤ (spa_json_next buf it v).iter.cur ∧
    (spa_json_next buf it v).iter.cur ≤ it.jend := by
  obtain ⟨h1, h2⟩ :=
    scan_mono buf it.jend (it.jend - it.cur) it.cur it.state it.depth v 0 (le_refl _) h
  exact ⟨h1, h2⟩

theorem next_iter_jend (buf : List Nat) (it : SpaJson) (v : Nat) :
    (spa_json_next buf it v).iter.jend = it.jend := rfl

theorem next_iter_hasParent (buf : List Nat) (it : SpaJson) (v : Nat) :
    (spa_json_next buf it v).iter.hasParent = it.hasParent := rfl

theorem next_write_eq_cur (buf : List Nat) (it : SpaJson) (v : Nat) (w : Nat)
    (h : (spa_json_next buf it v).parentWrite = some w) :
    w = (spa_json_next buf it v).iter.cur := by
  rw [next_eq] at h ⊢
  dsimp only at h ⊢
  by_cases hcond : ((SCAN buf it.jend it.cur it.state it.depth v 0).wrote && it.hasParent) = true
  · rw [if_pos hcond] at h
    injection h with h1
    omega
  · rw [if_neg hcond] at h
    cases h

theorem calls_invariant (buf : List Nat) (it0 : SpaJson) (v0 : Nat) (h : it0.cur ≤ it0.jend) :
    ∀ k, it0.cur ≤ (callsFrom buf it0 v0 k).1.cur ∧
      (callsFrom buf it0 v0 k).1.cur ≤ it0.jend ∧
      (callsFrom buf it0 v0 k).1.jend = it0.jend := by
  intro k
  induction k with
  | zero => exact ⟨le_refl _, h, rfl⟩
  | succ k ih =>
    obtain ⟨h1, h2, h3⟩ := ih
    obtain ⟨hm1, hm2⟩ := next_mono buf (callsFrom buf it0 v0 k).1 (callsFrom buf it0 v0 k).2
      (by rw [h3]; exact h2)
    rw [h3] at hm2
    simp only [callsFrom]
    exact ⟨by omega, hm2, by rw [next_iter_jend, h3]⟩

/-- C8: `cur <= end` holds before and after every `spa_json_next` call and `cur`
never decreases across a call; moreover the write-back a child cursor (created
by `spa_json_enter`) performs into its parent's `cur` — after any number of
`spa_json_next` calls on the child — is at least the parent's `cur` at entry
time, so it never rewinds a parent that has not been advanced since the child
was created. -/
theorem c8_cursor_monotone_and_bounded (buf : List Nat) (it : SpaJson) (v vA : Nat)
    (h : it.cur ≤ it.jend) :
    (it.cur ≤ (spa_json_next buf it v).iter.cur ∧
     (spa_json_next buf it v).iter.cur ≤ it.jend) ∧
    (∀ k w,
      (spa_json_next buf (callsFrom buf (spa_json_enter it) vA k).1
        (callsFrom buf (spa_json_enter it) vA k).2).parentWrite = some w →
      it.cur ≤ w) := by
  refine ⟨next_mono buf it v h, ?_⟩
  intro k w hw
  have hinv := calls_invariant buf (spa_json_enter it) vA h k
  have hm := next_mono buf (callsFrom buf (spa_json_enter it) vA k).1
    (callsFrom buf (spa_json_enter it) vA k).2 (by rw [hinv.2.2]; exact hinv.2.1)
  have hwc := next_write_eq_cur buf (callsFrom buf (spa_json_enter it) vA k).1
    (callsFrom buf (spa_json_enter it) vA k).2 w hw
  have h0 : (spa_json_enter it).cur = it.cur := rfl
  omega

/-- Witness for C8: the root cursor over `[]` and its entered child. -/
theorem c8_cursor_monotone_and_bounded_witness :
    (0 : Nat) ≤ 2 ∧
    ((0 ≤ (spa_json_next [91, 93] (spa_json_init 2) 0).iter.cur ∧
      (spa_json_next [91, 93] (spa_json_init 2) 0).iter.cur ≤ 2) ∧
     (∀ k w,
       (spa_json_next [91, 93] (callsFrom [91, 93] (spa_json_enter (spa_json_init 2)) 0 k).1
         (callsFrom [91, 93] (spa_json_enter (spa_json_init 2)) 0 k).2).parentWrite = some w →
       0 ≤ w)) :=
  ⟨by decide, c8_cursor_monotone_and_bounded [91, 93] (spa_json_init 2) 0 0 (by decide)⟩

theorem drain_ok (buf : List Nat) :
    ∀ k (it : SpaJson) (v : Nat), it.cur ≤ it.jend → (midToken it.state = true → v < it.cur) →
      (∀ o ∈ (drainGo buf k it v).1, o.write = none) ∧
      (∀ o itf, (drainGo buf k it v).2 = some (o, itf) →
        itf.jend = it.jend ∧ it.cur ≤ itf.cur ∧ itf.cur ≤ it.jend ∧
        (∀ w, o.write = some w →
          o.res = 0 ∧ w = itf.cur ∧ w < it.jend ∧ isCloseDelim (buf.getD w 0) = true ∧
          it.hasParent = true) ∧
        (o.res = 0 → itf.cur < it.jend → it.hasParent = true → o.write = some itf.cur)) := by
  intro k
  induction k with
  | zero =>
    intro it v h hmid
    exact ⟨fun o ho => absurd ho (by simp [drainGo]), fun o itf ho => absurd ho (by simp [drainGo])⟩
  | succ k ih =>
    intro it v h hmid
    obtain ⟨⟨ha1, ha2⟩, hb, hc, hd⟩ := next_ok buf it v h hmid
    simp only [drainGo]
    by_cases hpos : 0 < (spa_json_next buf it v).res
    · rw [if_pos hpos]
      have hmid' : midToken (spa_json_next buf it v).iter.state = true →
          (spa_json_next buf it v).value < (spa_json_next buf it v).iter.cur := by
        intro hmt
        rw [hd hpos] at hmt
        cases hmt
      obtain ⟨ih1, ih2⟩ := ih (spa_json_next buf it v).iter (spa_json_next buf it v).value
        (by rw [next_iter_jend]; exact ha2) hmid'
      constructor
      · intro o ho
        dsimp only at ho
        rcases List.mem_cons.mp ho with hh | ht
        · subst hh
          dsimp only
          cases hw : (spa_json_next buf it v).parentWrite with
          | none => rfl
          | some w => exact absurd (hb w hw).1 (by omega)
        · exact ih1 o ht
      · intro o itf ho
        dsimp only at ho
        obtain ⟨g1, g2, g3, g4, g5⟩ := ih2 o itf ho
        rw [next_iter_jend] at g1 g3
        rw [next_iter_hasParent] at g5
        refine ⟨g1, by omega, g3, ?_, g5⟩
        intro w hw
        obtain ⟨e1, e2, e3, e4, e5⟩ := g4 w hw
        rw [next_iter_jend] at e3
        rw [next_iter_hasParent] at e5
        exact ⟨e1, e2, e3, e4, e5⟩
    · rw [if_neg hpos]
      constructor
      · intro o ho; cases ho
      · intro o itf ho
        have ho' := ho
        dsimp only at ho'
        injection ho' with h1
        injection h1 with h2 h3
        subst h2
        subst h3
        refine ⟨rfl, ha1, ha2, ?_, ?_⟩
        · intro w hw
          obtain ⟨e1, e2, e3, e4, e5⟩ := hb w hw
          exact ⟨e1, e2, e3, e4, e5⟩
        · intro e1 e2 e3
          exact hc e1 e2 e3

/-- C7: over the lifetime of a child cursor created by `spa_json_enter` —
driven by `spa_json_next` calls until the first non-positive result — no
token-returning call ever stores into `parent->cur`; the final call stores
exactly once, at the moment it reaches a closing delimiter at depth 0 strictly
inside the buffer and reports end of scope (storing that very position); and no
store happens when the drain is abandoned early (any prefix consists of
token-returning calls only) or when the child reaches the end of the buffer
without a closing delimiter. -/
theorem c7_writeback_exactly_once_on_clean_close (buf : List Nat) (it : SpaJson) (v : Nat)
    (k : Nat) (h : it.cur ≤ it.jend) :
    (∀ o ∈ (drainGo buf k (spa_json_enter it) v).1, o.write = none) ∧
    (∀ o itf, (drainGo buf k (spa_json_enter it) v).2 = some (o, itf) →
      ((o.write = some itf.cur ∧ o.res = 0 ∧ itf.cur < it.jend ∧
        isCloseDelim (buf.getD itf.cur 0) = true) ∨
       (o.write = none ∧ (o.res ≠ 0 ∨ itf.cur = it.jend)))) := by
  obtain ⟨h1, h2⟩ := drain_ok buf k (spa_json_enter it) v h (by intro hmt; cases hmt)
  refine ⟨h1, ?_⟩
  intro o itf ho
  obtain ⟨g1, g2, g3, g4, g5⟩ := h2 o itf ho
  simp only [spa_json_enter] at g1 g2 g3 g4 g5
  cases hw : o.write with
  | some w =>
    obtain ⟨e1, e2, e3, e4, _⟩ := g4 w hw
    subst e2
    exact Or.inl ⟨rfl, e1, e3, e4⟩
  | none =>
    refine Or.inr ⟨rfl, ?_⟩
    by_cases hr : o.res = 0
    · by_cases hlt : itf.cur < it.jend
      · rw [g5 hr hlt trivial] at hw
        cases hw
      · exact Or.inr (by omega)
    · exact Or.inl hr

/-! ## String conversion (C9) -/

theorem take_drop_cons (buf : List Nat) (p k : Nat) (hp : p < buf.length) :
    (buf.drop p).take (k + 1) = buf.getD p 0 :: (buf.drop (p + 1)).take k := by
  rw [List.drop_eq_getElem_cons hp, List.take_succ_cons, List.getD_eq_getElem buf 0 hp]

theorem escDecode_eq (e : Nat) :
    (if e = 110 then 10
     else if e = 114 then 13
     else if e = 98 then 8
     else if e = 116 then 9
     else e) = escDecode e := rfl

theorem ps_spec (buf : List Nat) (stop : Nat) (hstop : stop ≤ buf.length) :
    ∀ n p f, stop - p ≤ n → stop - p ≤ f →
      psGo buf f p stop = specUnescape ((buf.drop p).take (stop - p)) (buf.getD stop 0) := by
  intro n
  induction n with
  | zero =>
    intro p f hn hf
    have h0 : stop - p = 0 := by omega
    rw [h0]
    cases f with
    | zero => rfl
    | succ f => rw [psGo, if_neg (by omega)]; rfl
  | succ n ih =>
    intro p f hn hf
    by_cases hp : p < stop
    · have hplen : p < buf.length := by omega
      cases f with
      | zero => omega
      | succ f =>
        have h1 : stop - p = (stop - p - 1) + 1 := by omega
        rw [psGo, if_pos hp, h1, take_drop_cons buf p _ hplen]
        by_cases hc : buf.getD p 0 = 92
        · rw [if_pos hc, hc, escDecode_eq, specUnescape.eq_def]
          dsimp only
          rw [if_pos rfl]
          by_cases h2 : stop = p + 1
          · have h3 : stop - p - 1 = 0 := by omega
            rw [h3, List.take_zero]
            dsimp only
            have h4 := ih (p + 2) f (by omega) (by omega)
            have h5 : stop - (p + 2) = 0 := by omega
            rw [h5, List.take_zero] at h4
            have h6 : specUnescape [] (buf.getD stop 0) = [] := by rw [specUnescape.eq_def]
            rw [h6] at h4
            rw [h4, h2]
          · have hq : p + 1 < buf.length := by omega
            have h3 : stop - p - 1 = (stop - p - 2) + 1 := by omega
            rw [h3, take_drop_cons buf (p + 1) _ hq]
            dsimp only
            have h4 := ih (p + 2) f (by omega) (by omega)
            have h5 : stop - (p + 2) = stop - p - 2 := by omega
            rw [h5] at h4
            rw [h4]
        · rw [if_neg hc, specUnescape.eq_def]
          dsimp only
          rw [if_neg hc]
          have h4 := ih (p + 1) f (by omega) (by omega)
          have h5 : stop - (p + 1) = stop - p - 1 := by omega
          rw [h5] at h4
          rw [h4]
    · have h0 : stop - p = 0 := by omega
      rw [h0]
      cases f with
      | zero => rfl
      | succ f => rw [psGo, if_neg (by omega)]; rfl

theorem specUnescape_length :
    ∀ n (l : List Nat) (close : Nat), l.length ≤ n →
      (specUnescape l close).length ≤ l.length := by
  intro n
  induction n with
  | zero =>
    intro l close hl
    have : l = [] := List.length_eq_zero.mp (by omega)
    subst this
    rw [specUnescape.eq_def]
  | succ n ih =>
    intro l close hl
    cases l with
    | nil => rw [specUnescape.eq_def]
    | cons c rest =>
      rw [specUnescape.eq_def]
      dsimp only
      by_cases hc : c = 92
      · rw [if_pos hc]
        cases rest with
        | nil => simp
        | cons e rest2 =>
          have := ih rest2 close (by simp at hl; omega)
          simp only [List.length_cons]
          omega
      · rw [if_neg hc]
        have := ih rest close (by simp at hl; omega)
        simp only [List.length_cons]
        omega

/-- C9: on any span inside the buffer satisfying `spa_json_is_string`,
`spa_json_parse_string` succeeds, and its output is exactly the interior
between the quotes with `\n \r \b \t` decoded to LF CR BS TAB, every other
backslash escape replaced by the literal character after the backslash (no
`\u` decoding), and a NUL appended; the output occupies at most span length - 1
bytes including that terminator. -/
theorem c9_parse_string_decodes (buf : List Nat) (val len : Nat)
    (hs : spa_json_is_string buf val len = true)
    (hb : val + len ≤ buf.length) :
    spa_json_parse_string buf val len =
      some (specUnescape ((buf.drop (val + 1)).take (len - 2)) (buf.getD (val + len - 1) 0)
        ++ [0]) ∧
    (specUnescape ((buf.drop (val + 1)).take (len - 2)) (buf.getD (val + len - 1) 0)
        ++ [0]).length ≤ len - 1 := by
  have hlen : 1 < len := by
    simp only [spa_json_is_string, Bool.and_eq_true, decide_eq_true_eq] at hs
    exact hs.1
  constructor
  · rw [spa_json_parse_string, if_pos hs]
    have heq := ps_spec buf (val + len - 1) (by omega) len (val + 1) len (by omega) (by omega)
    have hcount : val + len - 1 - (val + 1) = len - 2 := by omega
    rw [heq, hcount]
  · rw [List.length_append]
    have h1 := specUnescape_length ((buf.drop (val + 1)).take (len - 2)).length
      ((buf.drop (val + 1)).take (len - 2)) (buf.getD (val + len - 1) 0) (le_refl _)
    have h2 : ((buf.drop (val + 1)).take (len - 2)).length ≤ len - 2 := by
      rw [List.length_take]
      exact min_le_left _ _
    simp only [List.length_cons, List.length_nil]
    omega

/-- Witness for C9 on the 6-byte span `"a\nb"`. -/
theorem c9_parse_string_decodes_witness :
    spa_json_is_string [34, 97, 92, 110, 98, 34] 0 6 = true ∧
    0 + 6 ≤ 6 ∧
    (spa_json_parse_string [34, 97, 92, 110, 98, 34] 0 6 =
      some (specUnescape ((([34, 97, 92, 110, 98, 34] : List Nat).drop (0 + 1)).take (6 - 2))
        (([34, 97, 92, 110, 98, 34] : List Nat).getD (0 + 6 - 1) 0) ++ [0]) ∧
     (specUnescape ((([34, 97, 92, 110, 98, 34] : List Nat).drop (0 + 1)).take (6 - 2))
        (([34, 97, 92, 110, 98, 34] : List Nat).getD (0 + 6 - 1) 0) ++ [0]).length ≤ 6 - 1) :=
  ⟨by decide, by decide,
   c9_parse_string_decodes [34, 97, 92, 110, 98, 34] 0 6 (by decide) (by decide)⟩

/-! ## Entering a container versus swallowing it (C6) -/

theorem valIrr (buf : List Nat) (jend : Nat) :
    ∀ n cur st d v1 v2 u, jend - cur ≤ n → (midToken st = true → v1 = v2) →
      OutRel (SCAN buf jend cur st d v1 u) (SCAN buf jend cur st d v2 u) := by
  intro n
  induction n with
  | zero =>
    intro cur st d v1 v2 u hn hmid
    have hge : jend ≤ cur := by omega
    rw [scan_exit buf jend cur st d v1 u hge, scan_exit buf jend cur st d v2 u hge]
    refine ⟨rfl, rfl, rfl, rfl, rfl, ?_, hmid⟩
    intro hpos
    dsimp only at hpos
    split at hpos <;> omega
  | succ n ih =>
    intro cur st d v1 v2 u hn hmid
    by_cases hcur : cur < jend
    · rw [scan_succ buf jend cur st d v1 u hcur, scan_succ buf jend cur st d v2 u hcur]
      cases st <;> simp only [procByte, structA] <;> split_ifs <;> dsimp only <;>
        first
          | exact ih (cur + 1) _ _ _ _ _ (by omega)
              (by intro hmt; first | rfl | exact hmid rfl | simp [midToken] at hmt)
          | (have hv : v1 = v2 := hmid rfl
             subst hv
             exact ⟨rfl, rfl, rfl, rfl, rfl, fun _ => rfl, fun _ => rfl⟩)
          | exact ⟨rfl, rfl, rfl, rfl, rfl, fun _ => rfl, fun _ => rfl⟩
          | (refine ⟨rfl, rfl, rfl, rfl, rfl, fun hpos => ?_, fun hmt => ?_⟩ <;>
             simp_all [midToken])
    · have hge : jend ≤ cur := by omega
      rw [scan_exit buf jend cur st d v1 u hge, scan_exit buf jend cur st d v2 u hge]
      refine ⟨rfl, rfl, rfl, rfl, rfl, ?_, hmid⟩
      intro hpos
      dsimp only at hpos
      split at hpos <;> omega

theorem scan_none_eq_struct (buf : List Nat) (jend cur : Nat) (d v : Nat) (u : Int)
    (hcur : cur < jend) :
    SCAN buf jend cur .NONE d v u = SCAN buf jend cur .STRUCT 0 v u := by
  rw [scan_succ buf jend cur .NONE d v u hcur, scan_succ buf jend cur .STRUCT 0 v u hcur]
  rfl

theorem bareStart_not_open (c : Nat) (h : isBareStart c = true) : isOpen c = false := by
  simp only [isBareStart, decide_eq_true_eq] at h
  simp only [isOpen, decide_eq_false_iff_not]
  omega

/-- One child call simulated by the parent's flat swallow: when a call on a
cursor at depth `d` returns a token or fires the end-of-scope write, the run of
a cursor over the same bytes at depth `d + 1` neither returns nor writes before
the child's final position, and stands there in `__STRUCT` at the child's final
depth plus one (with some `value` slot). -/
theorem callSim (buf : List Nat) (jend : Nat) :
    ∀ n cur st d v vP u, jend - cur ≤ n → cur ≤ jend → st ≠ JState.NONE →
      (st = .UTF8 ∨ u = 0) → (midToken st = true → vP = v) →
      (0 < (SCAN buf jend cur st d v u).res ∨ (SCAN buf jend cur st d v u).wrote = true) →
      (SCAN buf jend cur st d v u).state = .STRUCT ∧
      ∃ vq, SCAN buf jend cur st (d + 1) vP u =
        SCAN buf jend (SCAN buf jend cur st d v u).cur .STRUCT
          ((SCAN buf jend cur st d v u).depth + 1) vq 0 := by
  intro n
  induction n with
  | zero =>
    intro cur st d v vP u hn hle hnn hu hmid hg
    rw [scan_exit buf jend cur st d v u (by omega)] at hg
    dsimp only at hg
    exfalso
    rcases hg with hp | hw
    · split at hp <;> omega
    · cases hw
  | succ n ih =>
    intro cur st d v vP u hn hle hnn hu hmid hg
    by_cases hcur : cur < jend
    swap
    · rw [scan_exit buf jend cur st d v u (by omega)] at hg
      dsimp only at hg
      exfalso
      rcases hg with hp | hw
      · split at hp <;> omega
      · cases hw
    rw [scan_succ buf jend cur st d v u hcur] at hg ⊢
    rw [scan_succ buf jend cur st (d + 1) vP u hcur]
    cases st with
    | NONE => exact absurd rfl hnn
    | STRUCT =>
      have hu0 : u = 0 := hu.resolve_left (by decide)
      subst hu0
      simp only [procByte] at hg ⊢
      by_cases h1 : isSep (buf.getD cur 0) = true
      · simp only [structA, if_pos h1] at hg ⊢
        exact ih (cur + 1) .STRUCT d v vP 0 (by omega) (by omega) (by intro h; cases h)
          (Or.inr rfl) (by intro h; simp [midToken] at h) hg
      · by_cases h2 : buf.getD cur 0 = 34
        · simp only [structA, if_neg h1, if_pos h2] at hg ⊢
          exact ih (cur + 1) .STRING d cur cur 0 (by omega) (by omega) (by intro h; cases h)
            (Or.inr rfl) (fun _ => rfl) hg
        · by_cases h3 : isOpen (buf.getD cur 0) = true
          · by_cases h4 : d + 1 > 1
            · simp only [structA, if_neg h1, if_neg h2, if_pos h3, if_pos h4,
                if_pos (show d + 1 + 1 > 1 by omega)] at hg ⊢
              exact ih (cur + 1) .STRUCT (d + 1) cur cur 0 (by omega) (by omega)
                (by intro h; cases h) (Or.inr rfl) (by intro h; simp [midToken] at h) hg
            · simp only [structA, if_neg h1, if_neg h2, if_pos h3, if_neg h4,
                if_pos (show d + 1 + 1 > 1 by omega)] at hg ⊢
              exact ⟨by trivial, ⟨cur, by trivial⟩⟩
          · by_cases h5 : isCloseDelim (buf.getD cur 0) = true
            · by_cases h6 : d = 0
              · subst h6
                simp only [structA, if_neg h1, if_neg h2, if_neg h3, if_pos h5, if_true,
                  if_neg (show ¬(0 + 1 = 0) by omega)] at hg ⊢
                refine ⟨by trivial, ⟨vP, ?_⟩⟩
                rw [scan_succ buf jend cur .STRUCT (0 + 1) vP 0 hcur]
                simp only [procByte, structA, if_neg h1, if_neg h2, if_neg h3, if_pos h5,
                  if_neg (show ¬(0 + 1 = 0) by omega)]
                try rfl
              · simp only [structA, if_neg h1, if_neg h2, if_neg h3, if_pos h5, if_neg h6,
                  if_neg (show ¬(d + 1 = 0) by omega)] at hg ⊢
                rw [show d + 1 - 1 = (d - 1) + 1 by omega]
                exact ih (cur + 1) .STRUCT (d - 1) v vP 0 (by omega) (by omega)
                  (by intro h; cases h) (Or.inr rfl) (by intro h; simp [midToken] at h) hg
            · by_cases h7 : isBareStart (buf.getD cur 0) = true
              · simp only [structA, if_neg h1, if_neg h2, if_neg h3, if_neg h5, if_pos h7]
                  at hg ⊢
                exact ih (cur + 1) .BARE d cur cur 0 (by omega) (by omega)
                  (by intro h; cases h) (Or.inr rfl) (fun _ => rfl) hg
              · simp only [structA, if_neg h1, if_neg h2, if_neg h3, if_neg h5, if_neg h7]
                  at hg ⊢
                exfalso
                rcases hg with hp | hw
                · omega
                · cases hw
    | BARE =>
      have hv : vP = v := hmid rfl
      subst hv
      have hu0 : u = 0 := hu.resolve_left (by decide)
      subst hu0
      simp only [procByte] at hg ⊢
      by_cases h1 : isBareEnd (buf.getD cur 0) = true
      · simp only [if_pos h1, if_pos (show d + 1 > 0 by omega)] at hg ⊢
        by_cases h2 : d > 0
        · simp only [if_pos h2] at hg ⊢
          by_cases h3 : isSep (buf.getD cur 0) = true
          · simp only [structA, if_pos h3] at hg ⊢
            exact ih (cur + 1) .STRUCT d vP vP 0 (by omega) (by omega) (by intro h; cases h)
              (Or.inr rfl) (by intro h; simp [midToken] at h) hg
          · by_cases h4 : buf.getD cur 0 = 34
            · simp only [structA, if_neg h3, if_pos h4] at hg ⊢
              exact ih (cur + 1) .STRING d cur cur 0 (by omega) (by omega)
                (by intro h; cases h) (Or.inr rfl) (fun _ => rfl) hg
            · by_cases h5 : isOpen (buf.getD cur 0) = true
              · simp only [structA, if_neg h3, if_neg h4, if_pos h5,
                  if_pos (show d + 1 > 1 by omega),
                  if_pos (show d + 1 + 1 > 1 by omega)] at hg ⊢
                exact ih (cur + 1) .STRUCT (d + 1) cur cur 0 (by omega) (by omega)
                  (by intro h; cases h) (Or.inr rfl) (by intro h; simp [midToken] at h) hg
              · by_cases h6 : isCloseDelim (buf.getD cur 0) = true
                · simp only [structA, if_neg h3, if_neg h4, if_neg h5, if_pos h6,
                    if_neg (show ¬(d = 0) by omega),
                    if_neg (show ¬(d + 1 = 0) by omega)] at hg ⊢
                  rw [show d + 1 - 1 = (d - 1) + 1 by omega]
                  exact ih (cur + 1) .STRUCT (d - 1) vP vP 0 (by omega) (by omega)
                    (by intro h; cases h) (Or.inr rfl) (by intro h; simp [midToken] at h) hg
                · by_cases h7 : isBareStart (buf.getD cur 0) = true
                  · simp only [structA, if_neg h3, if_neg h4, if_neg h5, if_neg h6, if_pos h7]
                      at hg ⊢
                    exact ih (cur + 1) .BARE d cur cur 0 (by omega) (by omega)
                      (by intro h; cases h) (Or.inr rfl) (fun _ => rfl) hg
                  · simp only [structA, if_neg h3, if_neg h4, if_neg h5, if_neg h6, if_neg h7]
                      at hg ⊢
                    exfalso
                    rcases hg with hp | hw
                    · omega
                    · cases hw
        · have hd0 : d = 0 := by omega
          subst hd0
          simp only [if_neg h2] at hg ⊢
          refine ⟨by trivial, ⟨vP, ?_⟩⟩
          rw [scan_succ buf jend cur .STRUCT (0 + 1) vP 0 hcur]
          simp only [procByte]
          try rfl
      · by_cases h8 : isPrint (buf.getD cur 0) = true
        · simp only [if_neg h1, if_pos h8] at hg ⊢
          exact ih (cur + 1) .BARE d vP vP 0 (by omega) (by omega) (by intro h; cases h)
            (Or.inr rfl) (fun _ => rfl) hg
        · simp only [if_neg h1, if_neg h8] at hg ⊢
          exfalso
          rcases hg with hp | hw
          · omega
          · cases hw
    | STRING =>
      have hv : vP = v := hmid rfl
      subst hv
      have hu0 : u = 0 := hu.resolve_left (by decide)
      subst hu0
      simp only [procByte] at hg ⊢
      by_cases h1 : buf.getD cur 0 = 92
      · simp only [if_pos h1] at hg ⊢
        exact ih (cur + 1) .ESC d vP vP 0 (by omega) (by omega) (by intro h; cases h)
          (Or.inr rfl) (fun _ => rfl) hg
      · by_cases h2 : buf.getD cur 0 = 34
        · by_cases h3 : d > 0
          · simp only [if_neg h1, if_pos h2, if_pos h3,
              if_pos (show d + 1 > 0 by omega)] at hg ⊢
            exact ih (cur + 1) .STRUCT d vP vP 0 (by omega) (by omega) (by intro h; cases h)
              (Or.inr rfl) (by intro h; simp [midToken] at h) hg
          · have hd0 : d = 0 := by omega
            subst hd0
            simp only [if_neg h1, if_pos h2, if_neg h3,
              if_pos (show 0 + 1 > 0 by omega)] at hg ⊢
            exact ⟨by trivial, ⟨vP, by trivial⟩⟩
        · by_cases h4 : 240 ≤ buf.getD cur 0 ∧ buf.getD cur 0 ≤ 247
          · simp only [if_neg h1, if_neg h2, if_pos h4] at hg ⊢
            exact ih (cur + 1) .UTF8 d vP vP (0 + 3) (by omega) (by omega) (by intro h; cases h)
              (Or.inl rfl) (fun _ => rfl) hg
          · by_cases h5 : 224 ≤ buf.getD cur 0 ∧ buf.getD cur 0 ≤ 239
            · simp only [if_neg h1, if_neg h2, if_neg h4, if_pos h5] at hg ⊢
              exact ih (cur + 1) .UTF8 d vP vP (0 + 2) (by omega) (by omega)
                (by intro h; cases h) (Or.inl rfl) (fun _ => rfl) hg
            · by_cases h6 : 192 ≤ buf.getD cur 0 ∧ buf.getD cur 0 ≤ 223
              · simp only [if_neg h1, if_neg h2, if_neg h4, if_neg h5, if_pos h6] at hg ⊢
                exact ih (cur + 1) .UTF8 d vP vP (0 + 1) (by omega) (by omega)
                  (by intro h; cases h) (Or.inl rfl) (fun _ => rfl) hg
              · by_cases h7 : isPrint (buf.getD cur 0) = true
                · simp only [if_neg h1, if_neg h2, if_neg h4, if_neg h5, if_neg h6,
                    if_pos h7] at hg ⊢
                  exact ih (cur + 1) .STRING d vP vP 0 (by omega) (by omega)
                    (by intro h; cases h) (Or.inr rfl) (fun _ => rfl) hg
                · simp only [if_neg h1, if_neg h2, if_neg h4, if_neg h5, if_neg h6,
                    if_neg h7] at hg ⊢
                  exfalso
                  rcases hg with hp | hw
                  · omega
                  · cases hw
    | UTF8 =>
      have hv : vP = v := hmid rfl
      subst hv
      simp only [procByte] at hg ⊢
      by_cases h1 : 128 ≤ buf.getD cur 0 ∧ buf.getD cur 0 ≤ 191
      · by_cases h2 : u - 1 = 0
        · simp only [if_pos h1, if_pos h2] at hg ⊢
          exact ih (cur + 1) .STRING d vP vP (u - 1) (by omega) (by omega)
            (by intro h; cases h) (Or.inr h2) (fun _ => rfl) hg
        · simp only [if_pos h1, if_neg h2] at hg ⊢
          exact ih (cur + 1) .UTF8 d vP vP (u - 1) (by omega) (by omega)
            (by intro h; cases h) (Or.inl rfl) (fun _ => rfl) hg
      · simp only [if_neg h1] at hg ⊢
        exfalso
        rcases hg with hp | hw
        · omega
        · cases hw
    | ESC =>
      have hv : vP = v := hmid rfl
      subst hv
      have hu0 : u = 0 := hu.resolve_left (by decide)
      subst hu0
      simp only [procByte] at hg ⊢
      by_cases h1 : isEscOk (buf.getD cur 0) = true
      · simp only [if_pos h1] at hg ⊢
        exact ih (cur + 1) .STRING d vP vP 0 (by omega) (by omega) (by intro h; cases h)
          (Or.inr rfl) (fun _ => rfl) hg
      · simp only [if_neg h1] at hg ⊢
        exfalso
        rcases hg with hp | hw
        · omega
        · cases hw

theorem scan_report (buf : List Nat) (jend : Nat) :
    ∀ n cur st d v u, jend - cur ≤ n →
      (st = .NONE ∨ st = .STRUCT ∨ (midToken st = true ∧ isOpen (buf.getD v 0) = false)) →
      0 < (SCAN buf jend cur st d v u).res →
      isOpen (buf.getD (SCAN buf jend cur st d v u).value 0) = true →
      (SCAN buf jend cur st d v u).state = .STRUCT ∧
      (SCAN buf jend cur st d v u).depth = 1 := by
  intro n
  induction n with
  | zero =>
    intro cur st d v u hn hst hpos hopen
    rw [scan_exit buf jend cur st d v u (by omega)] at hpos
    dsimp only at hpos
    split at hpos <;> omega
  | succ n ih =>
    intro cur st d v u hn hst hpos hopen
    by_cases hcur : cur < jend
    · rw [scan_succ buf jend cur st d v u hcur] at hpos hopen ⊢
      cases st with
      | NONE =>
        simp only [procByte, structA, if_neg (show ¬(0 + 1 > 1) by omega),
          if_pos (show (0 : Nat) = 0 from rfl)] at hpos hopen ⊢
        split_ifs at hpos hopen ⊢ with h1 h2 h3 h4 h5 <;> dsimp only at hpos hopen ⊢
        · exact ih (cur + 1) _ _ _ _ (by omega) (Or.inr (Or.inl rfl)) hpos hopen
        · exact ih (cur + 1) _ _ _ _ (by omega)
            (Or.inr (Or.inr ⟨rfl, by rw [h2]; decide⟩)) hpos hopen
        · exact ⟨rfl, rfl⟩
        · exact absurd hpos (by omega)
        · exact ih (cur + 1) _ _ _ _ (by omega)
            (Or.inr (Or.inr ⟨rfl, bareStart_not_open _ h5⟩)) hpos hopen
        · exact absurd hpos (by omega)
      | STRUCT =>
        simp only [procByte, structA] at hpos hopen ⊢
        split_ifs at hpos hopen ⊢ with h1 h2 h3 h4 h5 h6 h7 <;> dsimp only at hpos hopen ⊢
        · exact ih (cur + 1) _ _ _ _ (by omega) (Or.inr (Or.inl rfl)) hpos hopen
        · exact ih (cur + 1) _ _ _ _ (by omega)
            (Or.inr (Or.inr ⟨rfl, by rw [h2]; decide⟩)) hpos hopen
        · exact ih (cur + 1) _ _ _ _ (by omega) (Or.inr (Or.inl rfl)) hpos hopen
        · exact ⟨rfl, by omega⟩
        · exact absurd hpos (by omega)
        · exact ih (cur + 1) _ _ _ _ (by omega) (Or.inr (Or.inl rfl)) hpos hopen
        · exact ih (cur + 1) _ _ _ _ (by omega)
            (Or.inr (Or.inr ⟨rfl, bareStart_not_open _ h7⟩)) hpos hopen
        · exact absurd hpos (by omega)
      | BARE =>
        rcases hst with h | h | ⟨hmt, hop⟩
        · cases h
        · cases h
        simp only [procByte, structA] at hpos hopen ⊢
        split_ifs at hpos hopen ⊢ with h1 h2 h3 h4 h5 h6 h7 h8 h9 h10 <;>
          dsimp only at hpos hopen ⊢
        · exact ih (cur + 1) _ _ _ _ (by omega) (Or.inr (Or.inl rfl)) hpos hopen
        · exact ih (cur + 1) _ _ _ _ (by omega)
            (Or.inr (Or.inr ⟨rfl, by rw [h4]; decide⟩)) hpos hopen
        · exact ih (cur + 1) _ _ _ _ (by omega) (Or.inr (Or.inl rfl)) hpos hopen
        · exact absurd h2 (by omega)
        · exact absurd h2 (by omega)
        · exact ih (cur + 1) _ _ _ _ (by omega) (Or.inr (Or.inl rfl)) hpos hopen
        · exact ih (cur + 1) _ _ _ _ (by omega)
            (Or.inr (Or.inr ⟨rfl, bareStart_not_open _ h9⟩)) hpos hopen
        · exact absurd hpos (by omega)
        · rw [hopen] at hop; cases hop
        · exact ih (cur + 1) _ _ _ _ (by omega) (Or.inr (Or.inr ⟨rfl, hop⟩)) hpos hopen
        · exact absurd hpos (by omega)
      | STRING =>
        rcases hst with h | h | ⟨hmt, hop⟩
        · cases h
        · cases h
        simp only [procByte] at hpos hopen ⊢
        split_ifs at hpos hopen ⊢ with h1 h2 h3 h4 h5 h6 h7 <;>
          dsimp only at hpos hopen ⊢
        · exact ih (cur + 1) _ _ _ _ (by omega) (Or.inr (Or.inr ⟨rfl, hop⟩)) hpos hopen
        · exact ih (cur + 1) _ _ _ _ (by omega) (Or.inr (Or.inl rfl)) hpos hopen
        · rw [hopen] at hop; cases hop
        · exact ih (cur + 1) _ _ _ _ (by omega) (Or.inr (Or.inr ⟨rfl, hop⟩)) hpos hopen
        · exact ih (cur + 1) _ _ _ _ (by omega) (Or.inr (Or.inr ⟨rfl, hop⟩)) hpos hopen
        · exact ih (cur + 1) _ _ _ _ (by omega) (Or.inr (Or.inr ⟨rfl, hop⟩)) hpos hopen
        · exact ih (cur + 1) _ _ _ _ (by omega) (Or.inr (Or.inr ⟨rfl, hop⟩)) hpos hopen
        · exact absurd hpos (by omega)
      | UTF8 =>
        rcases hst with h | h | ⟨hmt, hop⟩
        · cases h
        · cases h
        simp only [procByte] at hpos hopen ⊢
        split_ifs at hpos hopen ⊢ with h1 h2 <;> dsimp only at hpos hopen ⊢
        · exact ih (cur + 1) _ _ _ _ (by omega) (Or.inr (Or.inr ⟨rfl, hop⟩)) hpos hopen
        · exact ih (cur + 1) _ _ _ _ (by omega) (Or.inr (Or.inr ⟨rfl, hop⟩)) hpos hopen
        · exact absurd hpos (by omega)
      | ESC =>
        rcases hst with h | h | ⟨hmt, hop⟩
        · cases h
        · cases h
        simp only [procByte] at hpos hopen ⊢
        split_ifs at hpos hopen ⊢ with h1 <;> dsimp only at hpos hopen ⊢
        · exact ih (cur + 1) _ _ _ _ (by omega) (Or.inr (Or.inr ⟨rfl, hop⟩)) hpos hopen
        · exact absurd hpos (by omega)
    · rw [scan_exit buf jend cur st d v u (by omega)] at hpos
      dsimp only at hpos
      split at hpos <;> omega

/-- Draining a child cursor to a clean close simulated by the parent: if the
drain's final call fires the write-back at position `w`, then the parent's flat
run from the child's start, one depth level up, is the same run as from `w` at
depth 1 (up to the contents of the `value` slot). -/
theorem drainSim (buf : List Nat) :
    ∀ k (c0 : SpaJson) (v : Nat),
      c0.hasParent = true →
      (c0.state = .NONE ∧ c0.depth = 0 ∨ c0.state = .STRUCT) →
      c0.cur ≤ c0.jend →
      ∀ o itf w, (drainGo buf k c0 v).2 = some (o, itf) → o.write = some w →
      ∀ vP, ∃ vq, SCAN buf c0.jend c0.cur .STRUCT (c0.depth + 1) vP 0 =
        SCAN buf c0.jend w .STRUCT 1 vq 0 := by
  intro k
  induction k with
  | zero =>
    intro c0 v hp hst hle o itf w hfin
    simp only [drainGo] at hfin
    cases hfin
  | succ k ih =>
    intro c0 v hp hst hle o itf w hfin hw vP
    obtain ⟨cur, jend, hpb, st, dep⟩ := c0
    subst hp
    simp only [drainGo, next_eq] at hfin
    rcases hst with ⟨hstN, hdep0⟩ | hstS
    · subst hstN
      subst hdep0
      by_cases hcj : cur < jend
      · rw [scan_none_eq_struct buf jend cur 0 v 0 hcj] at hfin
        by_cases hpos : 0 < (SCAN buf jend cur .STRUCT 0 v 0).res
        · rw [if_pos hpos] at hfin
          dsimp only at hfin
          obtain ⟨hso, vq1, heq1⟩ := callSim buf jend (jend - cur) cur .STRUCT 0 v vP 0
            (le_refl _) hle (by decide) (Or.inr rfl) (by intro h; simp [midToken] at h)
            (Or.inl hpos)
          rw [hso] at hfin
          obtain ⟨ha1, ha2⟩ := scan_mono buf jend (jend - cur) cur .STRUCT 0 v 0 (le_refl _) hle
          obtain ⟨vq2, heq2⟩ := ih ⟨(SCAN buf jend cur .STRUCT 0 v 0).cur, jend, true, .STRUCT,
              (SCAN buf jend cur .STRUCT 0 v 0).depth⟩ (SCAN buf jend cur .STRUCT 0 v 0).value
            rfl (Or.inr rfl) ha2 o itf w hfin hw vq1
          exact ⟨vq2, heq1.trans heq2⟩
        · rw [if_neg hpos] at hfin
          dsimp only at hfin
          injection hfin with h1
          injection h1 with h2 h3
          subst h2
          dsimp only at hw
          by_cases hwz : (SCAN buf jend cur .STRUCT 0 v 0).wrote = true
          · rw [if_pos (by rw [hwz]; rfl)] at hw
            injection hw with hw1
            obtain ⟨hso, vq1, heq1⟩ := callSim buf jend (jend - cur) cur .STRUCT 0 v vP 0
              (le_refl _) hle (by decide) (Or.inr rfl) (by intro h; simp [midToken] at h)
              (Or.inr hwz)
            obtain ⟨_, hb, _, _⟩ := scan_ok buf jend (jend - cur) cur .STRUCT 0 v 0 (le_refl _)
              hle (by intro h; simp [midToken] at h)
            obtain ⟨_, hdep0, _, _⟩ := hb hwz
            rw [hdep0] at heq1
            rw [← hw1]
            exact ⟨vq1, heq1⟩
          · have hwf : (SCAN buf jend cur .STRUCT 0 v 0).wrote = false := by
              revert hwz
              cases (SCAN buf jend cur .STRUCT 0 v 0).wrote <;> simp
            rw [hwf, if_neg (by simp)] at hw
            cases hw
      · rw [scan_exit buf jend cur .NONE 0 v 0 (by omega)] at hfin
        dsimp only at hfin
        rw [if_neg (by omega)] at hfin
        injection hfin with h1
        injection h1 with h2 h3
        subst h2
        simp at hw
    · subst hstS
      by_cases hpos : 0 < (SCAN buf jend cur .STRUCT dep v 0).res
      · rw [if_pos hpos] at hfin
        dsimp only at hfin
        obtain ⟨hso, vq1, heq1⟩ := callSim buf jend (jend - cur) cur .STRUCT dep v vP 0
          (le_refl _) hle (by decide) (Or.inr rfl) (by intro h; simp [midToken] at h)
          (Or.inl hpos)
        rw [hso] at hfin
        obtain ⟨ha1, ha2⟩ := scan_mono buf jend (jend - cur) cur .STRUCT dep v 0 (le_refl _) hle
        obtain ⟨vq2, heq2⟩ := ih ⟨(SCAN buf jend cur .STRUCT dep v 0).cur, jend, true, .STRUCT,
            (SCAN buf jend cur .STRUCT dep v 0).depth⟩ (SCAN buf jend cur .STRUCT dep v 0).value
          rfl (Or.inr rfl) ha2 o itf w hfin hw vq1
        exact ⟨vq2, heq1.trans heq2⟩
      · rw [if_neg hpos] at hfin
        dsimp only at hfin
        injection hfin with h1
        injection h1 with h2 h3
        subst h2
        dsimp only at hw
        by_cases hwz : (SCAN buf jend cur .STRUCT dep v 0).wrote = true
        · rw [if_pos (by rw [hwz]; rfl)] at hw
          injection hw with hw1
          obtain ⟨hso, vq1, heq1⟩ := callSim buf jend (jend - cur) cur .STRUCT dep v vP 0
            (le_refl _) hle (by decide) (Or.inr rfl) (by intro h; simp [midToken] at h)
            (Or.inr hwz)
          obtain ⟨_, hb, _, _⟩ := scan_ok buf jend (jend - cur) cur .STRUCT dep v 0 (le_refl _)
            hle (by intro h; simp [midToken] at h)
          obtain ⟨_, hdep0, _, _⟩ := hb hwz
          rw [hdep0] at heq1
          rw [← hw1]
          exact ⟨vq1, heq1⟩
        · have hwf : (SCAN buf jend cur .STRUCT dep v 0).wrote = false := by
            revert hwz
            cases (SCAN buf jend cur .STRUCT dep v 0).wrote <;> simp
          rw [hwf, if_neg (by simp)] at hw
          cases hw

/-- Two cursors over the same buffer with related scans produce the same
observable call sequences. -/
theorem obs_eq_of_next (buf : List Nat) :
    ∀ n (it1 it2 : SpaJson) (v1 v2 : Nat),
      it1.jend = it2.jend → it1.hasParent = it2.hasParent →
      OutRel (SCAN buf it1.jend it1.cur it1.state it1.depth v1 0)
        (SCAN buf it2.jend it2.cur it2.state it2.depth v2 0) →
      obsCalls buf n it1 v1 = obsCalls buf n it2 v2 := by
  intro n
  induction n with
  | zero => intro _ _ _ _ _ _ _; rfl
  | succ n ih =>
    intro it1 it2 v1 v2 hj hp hrel
    obtain ⟨h1, h2, h3, h4, h5, h6, h7⟩ := hrel
    simp only [obsCalls, next_eq]
    congr 1
    · have ev : (if 0 < (SCAN buf it1.jend it1.cur it1.state it1.depth v1 0).res
            then some (SCAN buf it1.jend it1.cur it1.state it1.depth v1 0).value else none) =
          (if 0 < (SCAN buf it2.jend it2.cur it2.state it2.depth v2 0).res
            then some (SCAN buf it2.jend it2.cur it2.state it2.depth v2 0).value else none) := by
        by_cases hpos : 0 < (SCAN buf it1.jend it1.cur it1.state it1.depth v1 0).res
        · rw [if_pos hpos, if_pos (h1 ▸ hpos), h6 hpos]
        · rw [if_neg hpos, if_neg (h1 ▸ hpos)]
      have ew : (if ((SCAN buf it1.jend it1.cur it1.state it1.depth v1 0).wrote
              && it1.hasParent) = true
            then some (SCAN buf it1.jend it1.cur it1.state it1.depth v1 0).cur else none) =
          (if ((SCAN buf it2.jend it2.cur it2.state it2.depth v2 0).wrote
              && it2.hasParent) = true
            then some (SCAN buf it2.jend it2.cur it2.state it2.depth v2 0).cur else none) := by
        rw [h5, h2, hp]
      rw [ev, ew, h1]
    · refine ih _ _ _ _ hj hp ?_
      dsimp only
      set a1 := (SCAN buf it1.jend it1.cur it1.state it1.depth v1 0).value with ha1
      set a2 := (SCAN buf it2.jend it2.cur it2.state it2.depth v2 0).value with ha2
      rw [h2, h3, h4, hj]
      exact valIrr buf it2.jend
        (it2.jend - (SCAN buf it2.jend it2.cur it2.state it2.depth v2 0).cur)
        (SCAN buf it2.jend it2.cur it2.state it2.depth v2 0).cur
        (SCAN buf it2.jend it2.cur it2.state it2.depth v2 0).state
        (SCAN buf it2.jend it2.cur it2.state it2.depth v2 0).depth
        a1 a2 0 (le_refl _) (fun hm => h7 (h3.symm ▸ hm))

theorem applyWrites_none :
    ∀ (ws : List (Option Nat)) (it : SpaJson), (∀ x ∈ ws, x = none) →
      applyWrites it ws = it := by
  intro ws
  induction ws with
  | nil => intro it _; rfl
  | cons a ws ih =>
    intro it h
    have ha : a = none := h a (List.mem_cons_self _ _)
    subst ha
    exact ih it (fun x hx => h x (List.mem_cons_of_mem _ hx))

theorem applyWrites_last (ws : List (Option Nat)) (it : SpaJson) (w : Nat)
    (h : ∀ x ∈ ws, x = none) :
    applyWrites it (ws ++ [some w]) = { it with cur := w } := by
  have h1 : applyWrites it (ws ++ [some w]) = applyWrites (applyWrites it ws) [some w] := by
    simp only [applyWrites, List.foldl_append]
  rw [h1, applyWrites_none ws it h]
  rfl

/-- C6: right after a parent cursor's `spa_json_next` has reported a container
(a positive result whose span byte is `[` or `{`), entering the container with
`spa_json_enter`, draining the child with up to `k` calls, and applying
whatever stores into `parent->cur` the drain performed, leaves the parent
producing exactly the same sequence of return codes, token spans and parent
stores over its next `n` calls as the never-entered parent, whose own `next()`
swallows the container as one opaque span. -/
theorem c6_enter_drain_equals_swallow (buf : List Nat) (it : SpaJson) (v vA : Nat) (k n : Nat)
    (hst : it.state = .NONE ∨ it.state = .STRUCT)
    (hc : it.cur ≤ it.jend)
    (hres : 0 < (spa_json_next buf it v).res)
    (hopen : isOpen (buf.getD (spa_json_next buf it v).value 0) = true) :
    obsCalls buf n
      (applyWrites (spa_json_next buf it v).iter
        (drainWrites (drainGo buf k (spa_json_enter (spa_json_next buf it v).iter) vA)))
      (spa_json_next buf it v).value
    = obsCalls buf n (spa_json_next buf it v).iter (spa_json_next buf it v).value := by
  have hinv : it.state = .NONE ∨ it.state = .STRUCT ∨
      (midToken it.state = true ∧ isOpen (buf.getD v 0) = false) := by
    rcases hst with h | h
    · exact Or.inl h
    · exact Or.inr (Or.inl h)
  obtain ⟨hstS, hdep1⟩ := scan_report buf it.jend (it.jend - it.cur) it.cur it.state it.depth
    v 0 (le_refl _) hinv hres hopen
  have hstS' : (spa_json_next buf it v).iter.state = .STRUCT := hstS
  have hdep1' : (spa_json_next buf it v).iter.depth = 1 := hdep1
  have hcur' : (spa_json_next buf it v).iter.cur ≤ it.jend := (next_mono buf it v hc).2
  have hpre : ∀ x ∈ (drainGo buf k (spa_json_enter (spa_json_next buf it v).iter) vA).1,
      x.write = none :=
    (drain_ok buf k (spa_json_enter (spa_json_next buf it v).iter) vA hcur'
      (by intro h; cases h)).1
  have hpremap : ∀ x ∈ ((drainGo buf k
      (spa_json_enter (spa_json_next buf it v).iter) vA).1.map (fun o => o.write)),
      x = none := by
    intro x hx
    obtain ⟨o, ho, rfl⟩ := List.mem_map.mp hx
    exact hpre o ho
  cases hfin : (drainGo buf k (spa_json_enter (spa_json_next buf it v).iter) vA).2 with
  | none =>
    rw [show drainWrites (drainGo buf k (spa_json_enter (spa_json_next buf it v).iter) vA) =
        (drainGo buf k (spa_json_enter (spa_json_next buf it v).iter) vA).1.map
          (fun o => o.write) ++ [] by rw [drainWrites, hfin]]
    rw [List.append_nil, applyWrites_none _ _ hpremap]
  | some p =>
    obtain ⟨o, itf⟩ := p
    cases how : o.write with
    | none =>
      rw [show drainWrites (drainGo buf k (spa_json_enter (spa_json_next buf it v).iter) vA) =
          (drainGo buf k (spa_json_enter (spa_json_next buf it v).iter) vA).1.map
            (fun o => o.write) ++ [o.write] by rw [drainWrites, hfin]]
      rw [how, applyWrites_none _ _ ?hallnone]
      case hallnone =>
        intro x hx
        rcases List.mem_append.mp hx with h | h
        · exact hpremap x h
        · exact List.mem_singleton.mp h
    | some w =>
      rw [show drainWrites (drainGo buf k (spa_json_enter (spa_json_next buf it v).iter) vA) =
          (drainGo buf k (spa_json_enter (spa_json_next buf it v).iter) vA).1.map
            (fun o => o.write) ++ [o.write] by rw [drainWrites, hfin]]
      rw [how, applyWrites_last _ _ _ hpremap]
      obtain ⟨vq, heq⟩ := drainSim buf k (spa_json_enter (spa_json_next buf it v).iter) vA rfl
        (Or.inl ⟨rfl, rfl⟩) hcur' o itf w hfin how (spa_json_next buf it v).value
      have heq' : SCAN buf (spa_json_next buf it v).iter.jend (spa_json_next buf it v).iter.cur
            .STRUCT 1 (spa_json_next buf it v).value 0 =
          SCAN buf (spa_json_next buf it v).iter.jend w .STRUCT 1 vq 0 := heq
      refine obs_eq_of_next buf n _ _ _ _ rfl rfl ?_
      dsimp only
      rw [hstS', hdep1', heq']
      exact valIrr buf (spa_json_next buf it v).iter.jend
        ((spa_json_next buf it v).iter.jend - w) w .STRUCT 1
        (spa_json_next buf it v).value vq 0 (le_refl _)
        (by intro h; simp [midToken] at h)

/-- Witness for C6 on the buffer `[1] 2`: enter the reported `[`, drain the
child, resume, and compare three subsequent calls with the never-entered run. -/
theorem c6_enter_drain_equals_swallow_witness :
    ((spa_json_init 5).state = .NONE ∨ (spa_json_init 5).state = .STRUCT) ∧
    (spa_json_init 5).cur ≤ (spa_json_init 5).jend ∧
    0 < (spa_json_next bufC6 (spa_json_init 5) 0).res ∧
    isOpen (bufC6.getD (spa_json_next bufC6 (spa_json_init 5) 0).value 0) = true ∧
    (obsCalls bufC6 3
        (applyWrites (spa_json_next bufC6 (spa_json_init 5) 0).iter
          (drainWrites (drainGo bufC6 3
            (spa_json_enter (spa_json_next bufC6 (spa_json_init 5) 0).iter) 0)))
        (spa_json_next bufC6 (spa_json_init 5) 0).value
      = obsCalls bufC6 3 (spa_json_next bufC6 (spa_json_init 5) 0).iter
          (spa_json_next bufC6 (spa_json_init 5) 0).value) :=
  ⟨Or.inl rfl, by decide, by decide, by decide,
   c6_enter_drain_equals_swallow bufC6 (spa_json_init 5) 0 0 3 3 (Or.inl rfl) (by decide)
     (by decide) (by decide)⟩

/-- Witness for C7: the child cursor of `[]` cleanly closing at `]`. -/
theorem c7_writeback_exactly_once_on_clean_close_witness :
    (1 : Nat) ≤ 2 ∧
    (drainGo [91, 93] 2 (spa_json_enter ⟨1, 2, false, .STRUCT, 1⟩) 0).2 =
      some (⟨0, 0, some 1⟩, ⟨1, 2, true, .STRUCT, 0⟩) ∧
    ((((⟨0, 0, some 1⟩ : CallOut).write = some ((⟨1, 2, true, .STRUCT, 0⟩ : SpaJson).cur) ∧
       (⟨0, 0, some 1⟩ : CallOut).res = 0 ∧ (⟨1, 2, true, .STRUCT, 0⟩ : SpaJson).cur < 2 ∧
       isCloseDelim (([91, 93] : List Nat).getD (⟨1, 2, true, .STRUCT, 0⟩ : SpaJson).cur 0) = true) ∨
      ((⟨0, 0, some 1⟩ : CallOut).write = none ∧
       ((⟨0, 0, some 1⟩ : CallOut).res ≠ 0 ∨ (⟨1, 2, true, .STRUCT, 0⟩ : SpaJson).cur = 2)))) :=
  ⟨by decide, by decide,
   (c7_writeback_exactly_once_on_clean_close [91, 93] ⟨1, 2, false, .STRUCT, 1⟩ 0 2
     (by decide)).2 ⟨0, 0, some 1⟩ ⟨1, 2, true, .STRUCT, 0⟩ (by decide)⟩

end SpaJsonModel
